import Mathlib

/-!
Verification development for the Cambodia food-price dashboard query engine.

The embedded code is `src/lib/db.ts` (catalog derivation, positional filter
resolution and SQL aggregation over the observation table) and the client-side
trend deduplicator `deduplicatedPrices` from `src/app/components/HomePage.tsx`.

The observation store is modelled as a list of raw SQLite rows.  A cell of the
`price` column is `SqlVal`: SQL `NULL`, a numeric value (modelled as `ℚ`), or a
text value.  SQLite semantics embedded here:

* `SELECT DISTINCT x … ORDER BY x` = sort by the BINARY collation (code-point
  order, which for UTF-8 agrees with byte order) and drop duplicates;
* `AVG(price)` skips `NULL` cells and coerces text cells through SQLite's
  numeric-prefix conversion (`textToNum` below, covering sign, integer digits
  and a fractional part; strings with no numeric prefix convert to `0`);
* `ORDER BY … DESC` puts `NULL` last;
* `GROUP BY x` puts all `NULL`s of `x` into one group.

JavaScript dynamics embedded: `if (x)` on a string is the emptiness test
(`keepTruthy`), on a number the non-zero test (`natTruthy`), `===` between a
string and `null`/`undefined` is false, and `Array.prototype.sort` is a stable
sort (`sortBy` below is the stable insertion sort).  The client rows consumed
by the deduplicator carry numeric prices, per the declared `PriceRow` type.
-/

namespace FoodPrice

/-- Code-point comparison of characters, as a boolean. -/
def charLtB (a b : Char) : Bool := decide (a.toNat < b.toNat)

/-- Lexicographic comparison of character lists (SQLite BINARY collation). -/
def charListLtB : List Char → List Char → Bool
  | _, [] => false
  | [], _ :: _ => true
  | a :: as, b :: bs => if a = b then charListLtB as bs else charLtB a b

/-- Strict string order used by `ORDER BY` (BINARY collation). -/
def strLtB (a b : String) : Bool := charListLtB a.data b.data

/-- Reflexive string order: `a` may be placed before `b`. -/
def strLeB (a b : String) : Bool := !(strLtB b a)

/-- Order on nullable strings: SQL `NULL` sorts before every string. -/
def optStrLtB : Option String → Option String → Bool
  | none, none => false
  | none, some _ => true
  | some _, none => false
  | some a, some b => strLtB a b

/-- `ORDER BY admin1, admin2` key comparison for `(admin1, admin2)` pairs
with a nullable `admin1`. -/
def dlPairLeB (x y : Option String × String) : Bool :=
  if x.1 = y.1 then strLeB x.2 y.2 else optStrLtB x.1 y.1

/-- `ORDER BY admin1, admin2` key comparison when both columns are non-null. -/
def strPairLeB (x y : String × String) : Bool :=
  if x.1 = y.1 then strLeB x.2 y.2 else strLtB x.1 y.1

/-- Stable insertion of `a` into `l`: `a` goes in front of the first element
it is `le`-before, so earlier elements stay in front of later equal ones,
matching the stability of `Array.prototype.sort`. -/
def insertSorted (le : α → α → Bool) (a : α) : List α → List α
  | [] => [a]
  | b :: l => if le a b then a :: b :: l else b :: insertSorted le a l

/-- Stable sort by the boolean relation `le`. -/
def sortBy (le : α → α → Bool) : List α → List α
  | [] => []
  | a :: l => insertSorted le a (sortBy le l)

/-- Distinct values keeping the first occurrence of each element. -/
def dedupFirst [DecidableEq α] : List α → List α
  | [] => []
  | a :: l => a :: (dedupFirst l).filter (fun b => decide (b ≠ a))

/-- `l.map f` with 1-based positions threaded through, modelling
`list.map((x, idx) => f(idx + 1, x))`. -/
def posMap (f : Nat → α → β) : Nat → List α → List β
  | _, [] => []
  | n, a :: l => f n a :: posMap f (n + 1) l

/-- Minimum of `a` and the elements of a list. -/
def minNatD (a : Nat) : List Nat → Nat
  | [] => a
  | b :: l => min a (minNatD b l)

/-- SQL `MIN` over a list of integers (`none` on the empty list). -/
def minNat? : List Nat → Option Nat
  | [] => none
  | a :: l => some (minNatD a l)

/-- A cell of the `price` column: SQL `NULL`, a numeric value, or text. -/
inductive SqlVal where
  | null : SqlVal
  | num : ℚ → SqlVal
  | text : String → SqlVal
deriving DecidableEq

/-- Value of a digit run as a natural number. -/
def digitsToNat (ds : List Char) : Nat :=
  ds.foldl (fun acc c => 10 * acc + (c.toNat - 48)) 0

/-- SQLite text-to-numeric coercion on the fragment the data can contain:
an optional sign, integer digits and an optional fractional part are read
off the front of the string; a string with no numeric prefix converts
to `0` (exponents are not modelled). -/
def textToNum (s : String) : ℚ :=
  let cs := s.data
  let signed : ℚ × List Char :=
    match cs with
    | '-' :: rest => (-1, rest)
    | '+' :: rest => (1, rest)
    | _ => (1, cs)
  let ints := signed.2.takeWhile Char.isDigit
  let rest := signed.2.dropWhile Char.isDigit
  let frac : List Char :=
    match rest with
    | '.' :: tail => tail.takeWhile Char.isDigit
    | _ => []
  signed.1 * ((digitsToNat ints : ℚ) + (digitsToNat frac : ℚ) / ((10 : ℚ) ^ frac.length))

/-- Numeric view of a price cell with `NULL` mapped to `0`; this is the
"non-numeric/absent → 0" coercion in the words of the specification. -/
def SqlVal.num0 : SqlVal → ℚ
  | .null => 0
  | .num q => q
  | .text s => textToNum s

/-- Numeric view of a price cell as used by SQL `AVG`: `NULL` cells are
skipped, text cells are coerced. -/
def SqlVal.toNumOpt : SqlVal → Option ℚ
  | .null => none
  | .num q => some q
  | .text s => some (textToNum s)

/-- SQL `AVG` over a column: the mean of the non-`NULL` cells after text
coercion, `NULL` when every cell is `NULL` (in particular on no rows). -/
def sqlAvg (l : List SqlVal) : Option ℚ :=
  match l.filterMap SqlVal.toNumOpt with
  | [] => none
  | x :: xs => some ((x :: xs).sum / ((x :: xs).length : ℚ))

/-- SQL `MAX` over a nullable text column. -/
def sqlMaxStr (l : List (Option String)) : Option String :=
  (l.filterMap id).foldl
    (fun acc d =>
      match acc with
      | none => some d
      | some m => some (if strLeB m d then d else m))
    none

/-- One raw row of the observation table `food_price_*`.  `rowid` is the
SQLite rowid; every data column is nullable; `price` may hold any storage
class. -/
structure RawRow where
  rowid : Nat
  date : Option String := none
  admin1 : Option String := none
  admin2 : Option String := none
  market : Option String := none
  category : Option String := none
  commodity : Option String := none
  unit : Option String := none
  currency : Option String := none
  price : SqlVal := .null
deriving DecidableEq

/-- The observation store: the rows of the table, in rowid/insertion order. -/
abbrev Store := List RawRow

/-- `SELECT DISTINCT admin1 FROM T WHERE admin1 IS NOT NULL ORDER BY admin1`:
the province lookup list shared by `getFilters`, `getItemsByLocation`,
`getPriceRows` and `getOverview`. -/
def provinceNames (s : Store) : List String :=
  dedupFirst (sortBy strLeB (s.filterMap (·.admin1)))

/-- `SELECT DISTINCT admin1, admin2 FROM T WHERE admin2 IS NOT NULL ORDER BY
admin1, admin2`: the district lookup used by the three query functions
(`admin1` may be `NULL` here). -/
def districtLookup (s : Store) : List (Option String × String) :=
  dedupFirst (sortBy dlPairLeB (s.filterMap (fun r =>
    match r.admin2 with
    | some d => some (r.admin1, d)
    | none => none)))

/-- `SELECT DISTINCT admin1, admin2 FROM T WHERE admin1 IS NOT NULL AND
admin2 IS NOT NULL ORDER BY admin1, admin2`: the district listing of
`getFilters`. -/
def filtersDistricts (s : Store) : List (String × String) :=
  dedupFirst (sortBy strPairLeB (s.filterMap (fun r =>
    match r.admin1, r.admin2 with
    | some p, some d => some (p, d)
    | _, _ => none)))

/-- JavaScript truthiness of an optional numeric id (`undefined` and `0` are
falsy). -/
def natTruthy (o : Option Nat) : Bool := decide (o.getD 0 ≠ 0)

/-- JavaScript truthiness of an optional string (`undefined` and `""` are
falsy). -/
def strTruthy (o : Option String) : Bool := decide (o.getD "" ≠ "")

/-- `if (x) use(x)` on an optional string: keep the value only when truthy. -/
def keepTruthy : Option String → Option String
  | some v => if v = "" then none else some v
  | none => none

/-- An entry of the item listing: `SELECT DISTINCT commodity AS name, unit,
category, MIN(rowid) AS id … GROUP BY commodity, unit, category`. -/
structure Item where
  id : Nat
  name : String
  unit : Option String
  category : Option String
deriving DecidableEq

/-- `ORDER BY category, name` key comparison for item entries. -/
def itemLeB (a b : Item) : Bool :=
  if a.category = b.category then strLeB a.name b.name else optStrLtB a.category b.category

/-- The distinct `(commodity, unit, category)` triples with non-null
commodity, one per `GROUP BY commodity, unit, category` group. -/
def itemKeys (rows : List RawRow) : List (String × Option String × Option String) :=
  dedupFirst (rows.filterMap (fun r => r.commodity.map (fun c => (c, r.unit, r.category))))

/-- The rowids of the rows of one `GROUP BY commodity, unit, category`
group. -/
def itemGroupRowids (rows : List RawRow) (k : String × Option String × Option String) :
    List Nat :=
  (rows.filter (fun r =>
    decide (r.commodity = some k.1) && decide (r.unit = k.2.1) &&
      decide (r.category = k.2.2))).map (·.rowid)

/-- The item listing of `getFilters`/`getItemsByLocation` over a given row
set: grouped triples with `MIN(rowid) AS id`, ordered by `(category, name)`. -/
def itemsQuery (rows : List RawRow) : List Item :=
  sortBy itemLeB ((itemKeys rows).map (fun k =>
    { id := (minNat? (itemGroupRowids rows k)).getD 0,
      name := k.1, unit := k.2.1, category := k.2.2 }))

/-- A district entry of the catalog returned by `getFilters`. -/
structure DistrictEntry where
  id : Nat
  name : String
deriving DecidableEq

/-- A province entry of the catalog returned by `getFilters`. -/
structure ProvinceEntry where
  id : Nat
  name : String
  districts : List DistrictEntry
deriving DecidableEq

/-- The catalog returned by `getFilters`. -/
structure Filters where
  provinces : List ProvinceEntry
  items : List Item
deriving DecidableEq

/-- `getFilters` of `src/lib/db.ts`: provinces with 1-based positional ids,
per-province districts with 1-based positional ids, and the item listing. -/
def getFilters (s : Store) : Filters :=
  { provinces := posMap (fun i p =>
      { id := i, name := p,
        districts := posMap (fun j d => { id := j, name := d.2 }) 1
          ((filtersDistricts s).filter (fun d => decide (d.1 = p))) }) 1 (provinceNames s),
    items := itemsQuery s }

/-- `getDb`'s locale normalisation: any locale other than `km` maps to `en`. -/
def validLocale (l : String) : String := if l = "km" then "km" else "en"

/-- `getFilters` addressed through the per-locale store selection. -/
def getFiltersLocale (stores : String → Store) (l : String) : Filters :=
  getFilters (stores (validLocale l))

/-- The exact-match predicate assembled into a `WHERE` clause: each term is
present or omitted. -/
structure Conds where
  province : Option String := none
  district : Option String := none
  commodity : Option String := none
deriving DecidableEq

/-- One predicate term: `column = value`, vacuous when the term is omitted.
A `NULL` column value never matches (SQL three-valued `=`). -/
def matchOpt (cond : Option String) (field : Option String) : Bool :=
  match cond with
  | none => true
  | some v => decide (field = some v)

/-- A row satisfies the assembled `WHERE` clause. -/
def condMatches (c : Conds) (r : RawRow) : Bool :=
  matchOpt c.province r.admin1 && matchOpt c.district r.admin2 &&
    matchOpt c.commodity r.commodity

/-- Province predicate term shared by the three query functions: resolve the
1-based `provinceId` in the province lookup; the term is dropped when the id
is falsy, out of range, or resolves to a falsy (empty) name. -/
def provinceCondOf (s : Store) (provinceId : Option Nat) : Option String :=
  if natTruthy provinceId then
    keepTruthy ((provinceNames s).get? (provinceId.getD 0 - 1))
  else none

/-- District predicate term of `getOverview` and `getItemsByLocation`: the
district lookup is first narrowed to the entries whose `admin1` strictly
equals the resolved province name (no entry survives when the province id is
out of range), then indexed by the 1-based `districtId`. -/
def scopedDistrictCond (s : Store) (provinceId districtId : Option Nat) : Option String :=
  if natTruthy districtId && natTruthy provinceId then
    keepTruthy ((((districtLookup s).filter (fun d =>
        match (provinceNames s).get? (provinceId.getD 0 - 1) with
        | some p => decide (d.1 = some p)
        | none => false)).get? (districtId.getD 0 - 1)).map (·.2))
  else none

/-- District predicate term of `getPriceRows`: like `scopedDistrictCond`,
except that when the resolved province name is falsy (missing or empty) the
index falls back to the whole, un-scoped district lookup. -/
def priceRowsDistrictCond (s : Store) (provinceId districtId : Option Nat) : Option String :=
  if natTruthy districtId && natTruthy provinceId then
    keepTruthy (((if strTruthy ((provinceNames s).get? (provinceId.getD 0 - 1)) then
        (districtLookup s).filter (fun d =>
          decide (d.1 = (provinceNames s).get? (provinceId.getD 0 - 1)))
      else districtLookup s).get? (districtId.getD 0 - 1)).map (·.2))
  else none

/-- Parameters of `getPriceRows`. -/
structure PriceParams where
  provinceId : Option Nat := none
  districtId : Option Nat := none
  itemName : Option String := none
  limit : Option Nat := none
deriving DecidableEq

/-- Parameters of `getOverview`. -/
structure OverviewParams where
  provinceId : Option Nat := none
  districtId : Option Nat := none
  itemName : Option String := none
deriving DecidableEq

/-- Parameters of `getItemsByLocation`. -/
structure ItemsParams where
  provinceId : Option Nat := none
  districtId : Option Nat := none
deriving DecidableEq

/-- The predicate assembled by `getPriceRows`. -/
def priceRowsConds (s : Store) (p : PriceParams) : Conds :=
  { province := provinceCondOf s p.provinceId,
    district := priceRowsDistrictCond s p.provinceId p.districtId,
    commodity := keepTruthy p.itemName }

/-- The predicate assembled by `getOverview`. -/
def overviewConds (s : Store) (p : OverviewParams) : Conds :=
  { province := provinceCondOf s p.provinceId,
    district := scopedDistrictCond s p.provinceId p.districtId,
    commodity := keepTruthy p.itemName }

/-- The predicate assembled by `getItemsByLocation` (its `commodity IS NOT
NULL` base condition lives inside `itemsQuery`). -/
def itemsByLocConds (s : Store) (p : ItemsParams) : Conds :=
  { province := provinceCondOf s p.provinceId,
    district := scopedDistrictCond s p.provinceId p.districtId,
    commodity := none }

/-- `getItemsByLocation` of `src/lib/db.ts`. -/
def getItemsByLocation (s : Store) (p : ItemsParams) : List Item :=
  itemsQuery (s.filter (condMatches (itemsByLocConds s p)))

/-- `ORDER BY date DESC, id DESC` comparison: later dates first, `NULL`
dates last, ties broken by descending rowid. -/
def priceRowOrdB (a b : RawRow) : Bool :=
  if a.date = b.date then decide (b.rowid ≤ a.rowid) else optStrLtB b.date a.date

/-- One row of the `getPriceRows` response payload. -/
structure PriceRowOut where
  id : Nat
  item : Option String
  category : Option String
  unit : Option String
  price : SqlVal
  currency : Option String
  date : Option String
  province : Option String
  district : Option String
  market : Option String
deriving DecidableEq

/-- The field renaming `getPriceRows` applies to each selected row. -/
def rawToOut (r : RawRow) : PriceRowOut :=
  { id := r.rowid, item := r.commodity, category := r.category, unit := r.unit,
    price := r.price, currency := r.currency, date := r.date,
    province := r.admin1, district := r.admin2, market := r.market }

/-- `getPriceRows` of `src/lib/db.ts`: filter, order by `date DESC, id
DESC`, apply `LIMIT` (default 200), rename fields. -/
def getPriceRows (s : Store) (p : PriceParams) : List PriceRowOut :=
  ((sortBy priceRowOrdB (s.filter (condMatches (priceRowsConds s p)))).take
    (p.limit.getD 200)).map rawToOut

/-- The `Overview` response record. -/
structure Overview where
  lastUpdated : Option String
  totalItems : Nat
  totalMarkets : Nat
  averagePrice : Option ℚ
deriving DecidableEq

/-- The rows matching the predicate `getOverview` assembles. -/
def overviewMatching (s : Store) (p : OverviewParams) : List RawRow :=
  s.filter (condMatches (overviewConds s p))

/-- `getOverview` of `src/lib/db.ts`: `MAX(date)`, `COUNT(DISTINCT
commodity)`, `COUNT(DISTINCT market)` and `AVG(price)` over the matching
rows. -/
def getOverview (s : Store) (p : OverviewParams) : Overview :=
  { lastUpdated := sqlMaxStr ((overviewMatching s p).map (·.date)),
    totalItems := (dedupFirst ((overviewMatching s p).filterMap (·.commodity))).length,
    totalMarkets := (dedupFirst ((overviewMatching s p).filterMap (·.market))).length,
    averagePrice := sqlAvg ((overviewMatching s p).map (·.price)) }

/-- The rows matching the (optional) commodity filter of
`getAveragesByProvince`. -/
def avgMatching (s : Store) (itemName : Option String) : List RawRow :=
  s.filter (fun r => matchOpt (keepTruthy itemName) r.commodity)

/-- The distinct `admin1` group keys of `GROUP BY admin1` (`NULL` provinces
form one group of their own). -/
def provinceGroupKeys (s : Store) (itemName : Option String) : List (Option String) :=
  dedupFirst ((avgMatching s itemName).map (·.admin1))

/-- The matching rows of one province group. -/
def provRows (s : Store) (itemName : Option String) (k : Option String) : List RawRow :=
  (avgMatching s itemName).filter (fun r => decide (r.admin1 = k))

/-- `ORDER BY averagePrice DESC` comparison: higher averages first, `NULL`
averages last. -/
def optRatGeB : Option ℚ → Option ℚ → Bool
  | _, none => true
  | none, some _ => false
  | some a, some b => decide (b ≤ a)

/-- `getAveragesByProvince` of `src/lib/db.ts`: per-province `AVG(price)`
over the matching rows, ordered by average descending. -/
def getAveragesByProvince (s : Store) (itemName : Option String) :
    List (Option String × Option ℚ) :=
  sortBy (fun g h => optRatGeB g.2 h.2)
    ((provinceGroupKeys s itemName).map (fun k =>
      (k, sqlAvg ((provRows s itemName k).map (·.price)))))

/-- A price row as consumed by the dashboard client (the declared `PriceRow`
type of `HomePage.tsx`; prices are numeric per that declaration). -/
structure CRow where
  id : Nat
  item : String
  category : String
  unit : String
  price : ℚ
  currency : String
  date : String
  province : String
  district : String
  market : String
deriving DecidableEq

/-- The trend indicator of a deduplicated row. -/
inductive Trend where
  | up : Trend
  | down : Trend
  | same : Trend
deriving DecidableEq

/-- A deduplicated row: the representative annotated with `previousPrice`
and `trend` (`none` models JavaScript `null`). -/
structure DRow extends CRow where
  previousPrice : Option ℚ
  trend : Option Trend
deriving DecidableEq

/-- The three grouping modes of the trend deduplicator. -/
inductive GroupMode where
  | noFilters : GroupMode
  | foodOnly : GroupMode
  | provinceSelected : GroupMode
deriving DecidableEq

/-- Mode selection from the active filters: no province and no item filter
gives `noFilters`, an item filter without a province gives `foodOnly`,
otherwise a province is selected. -/
def dedupMode (provinceId : Option Nat) (itemName : Option String) : GroupMode :=
  if !natTruthy provinceId && !strTruthy itemName then .noFilters
  else if !natTruthy provinceId && strTruthy itemName then .foodOnly
  else .provinceSelected

/-- The group key of a row: the item name, or `item|||province` in
`foodOnly` mode. -/
def groupKey (mode : GroupMode) (r : CRow) : String :=
  match mode with
  | .foodOnly => r.item ++ "|||" ++ r.province
  | _ => r.item

/-- Append a row to its group, preserving the `Map` key insertion order. -/
def addToGroups (groups : List (String × List CRow)) (key : String) (row : CRow) :
    List (String × List CRow) :=
  match groups with
  | [] => [(key, [row])]
  | (k, rs) :: rest =>
      if k = key then (k, rs ++ [row]) :: rest else (k, rs) :: addToGroups rest key row

/-- Partition the rows by group key (rows with a falsy item name are
skipped), keys in first-appearance order as with a JavaScript `Map`. -/
def buildGroups (mode : GroupMode) (rows : List CRow) : List (String × List CRow) :=
  rows.foldl (fun gs r => if r.item = "" then gs else addToGroups gs (groupKey mode r) r) []

/-- Descending-price comparison of client rows (`(a, b) => b.price -
a.price`). -/
def cRowPriceGeB (a b : CRow) : Bool := decide (b.price ≤ a.price)

/-- `previousPrice` of a group: the price of the second-ranked row run
through `|| null` (absent second row, or a falsy price, give `null`). -/
def prevOf (rest : List CRow) : Option ℚ :=
  match rest.head? with
  | some p => if p.price = 0 then none else some p.price
  | none => none

/-- Trend of a group: the representative's price against the second-ranked
price (`null` without a second row). -/
def trendOf (latest : CRow) (rest : List CRow) : Option Trend :=
  match rest.head? with
  | some p =>
      if p.price < latest.price then some Trend.up
      else if latest.price < p.price then some Trend.down
      else some Trend.same
  | none => none

/-- The representative entry of one group: discard zero prices, sort the
rest by price descending; the head is the representative, the second row
supplies `previousPrice` and the trend comparison; a group with no non-zero
price produces no entry. -/
def mkEntry (rows : List CRow) : Option DRow :=
  match sortBy cRowPriceGeB (rows.filter (fun r => decide (r.price ≠ 0))) with
  | [] => none
  | latest :: rest =>
      some { toCRow := latest, previousPrice := prevOf rest, trend := trendOf latest rest }

/-- Descending-price comparison of deduplicated rows. -/
def dRowPriceGeB (a b : DRow) : Bool := decide (b.price ≤ a.price)

/-- Final sort of the non-`foodOnly` modes: item name ascending, then
province ascending (`localeCompare` modelled as lexicographic order). -/
def dRowNameLeB (a b : DRow) : Bool :=
  if a.item = b.item then strLeB a.province b.province else strLtB a.item b.item

/-- `deduplicatedPrices` of `HomePage.tsx`: group, pick representatives,
then sort by price descending in `foodOnly` mode and by item/province name
otherwise. -/
def deduplicatedPrices (rows : List CRow) (provinceId : Option Nat)
    (itemName : Option String) : List DRow :=
  match dedupMode provinceId itemName with
  | .foodOnly =>
      sortBy dRowPriceGeB
        ((buildGroups .foodOnly rows).filterMap (fun g => mkEntry g.2))
  | mode =>
      sortBy dRowNameLeB
        ((buildGroups mode rows).filterMap (fun g => mkEntry g.2))

/-- Follows the specification's words for claim C1: "averagePrice equal to
the arithmetic mean of the coerced prices of exactly the rows matching the
predicate (non-numeric price values coerce to 0 and participate in the
mean); when zero rows match, averagePrice is null".  Compare with
`(getOverview s p).averagePrice`. -/
def specAveragePrice (s : Store) (p : OverviewParams) : Option ℚ :=
  match overviewMatching s p with
  | [] => none
  | l@(_ :: _) => some ((l.map (fun r => SqlVal.num0 r.price)).sum / (l.length : ℚ))

/-- Follows the specification's words for claim C6: the per-province mean of
the coerced prices of that province's matching rows.  Compare with the
averages listed by `getAveragesByProvince`. -/
def specProvinceMean (s : Store) (itemName : Option String) (k : Option String) : Option ℚ :=
  match provRows s itemName k with
  | [] => none
  | l@(_ :: _) => some ((l.map (fun r => SqlVal.num0 r.price)).sum / (l.length : ℚ))

/-- Strictly-descending check on a list of nullable averages, following
claim C6's words "sorted strictly descending by average price" (`NULL`
ordered below every value). -/
def strictDescB : List (Option ℚ) → Bool
  | [] => true
  | [_] => true
  | a :: b :: l => (optRatGeB a b && !optRatGeB b a) && strictDescB (b :: l)

/-- The districts of one province, in the scoped resolution order: the
district lookup narrowed to that province. -/
def districtsOfProvince (s : Store) (p : String) : List String :=
  ((districtLookup s).filter (fun d => decide (d.1 = some p))).map (·.2)

/-- Store with one numeric and one `NULL` price (both rows match the empty
predicate). -/
def nullPriceStore : Store :=
  [{ rowid := 1, admin1 := some "A", price := .num 10 },
   { rowid := 2, admin1 := some "A", price := .null }]

/-- Store with two all-numeric prices. -/
def twoPriceStore : Store :=
  [{ rowid := 1, admin1 := some "A", price := .num 4 },
   { rowid := 2, admin1 := some "A", price := .num 8 }]

/-- The three rows of the specification's trend-deduplicator example. -/
def riceRows : List CRow :=
  [{ id := 1, item := "Rice", category := "cereals", unit := "kg", price := 100,
     currency := "KHR", date := "2023-06-19", province := "A", district := "",
     market := "" },
   { id := 2, item := "Rice", category := "cereals", unit := "kg", price := 150,
     currency := "KHR", date := "2023-06-19", province := "B", district := "",
     market := "" },
   { id := 3, item := "Rice", category := "cereals", unit := "kg", price := 0,
     currency := "KHR", date := "2023-06-19", province := "C", district := "",
     market := "" }]

/-- Store whose first province (in sorted order) has the empty name and one
district, while a second province holds the district that the global lookup
lists second. -/
def emptyProvStore : Store :=
  [{ rowid := 1, admin1 := some "", admin2 := some "D2" },
   { rowid := 2, admin1 := some "B", admin2 := some "D1" }]

/-- Store with two provinces of one district each, used against an
out-of-range province id. -/
def twoProvStore : Store :=
  [{ rowid := 1, date := some "2023-06-19", admin1 := some "A", admin2 := some "X" },
   { rowid := 2, date := some "2023-06-19", admin1 := some "B", admin2 := some "Y" }]

/-- Store whose alphabetically first item lives in the later row, so its
`MIN(rowid)` id differs from its 1-based position. -/
def twoItemStore : Store :=
  [{ rowid := 1, commodity := some "B", unit := some "kg", category := some "Z" },
   { rowid := 2, commodity := some "A", unit := some "kg", category := some "A" }]

/-- Store with a `NULL`-price row in province `A` and a two-way tie between
provinces `B` and `C`. -/
def tieStore : Store :=
  [{ rowid := 1, admin1 := some "A", price := .num 10 },
   { rowid := 2, admin1 := some "A", price := .null },
   { rowid := 3, admin1 := some "B", price := .num 7 },
   { rowid := 4, admin1 := some "C", price := .num 7 }]

/-- Store containing an empty-string province name. -/
def emptyNameStore : Store :=
  [{ rowid := 1, admin1 := some "" }]

/-- Store with one province holding two districts, for the scoped-resolution
witness. -/
def scopedStore : Store :=
  [{ rowid := 1, admin1 := some "P", admin2 := some "D1" },
   { rowid := 2, admin1 := some "P", admin2 := some "D2" },
   { rowid := 3, admin1 := some "Q", admin2 := some "D0" }]

/-- The rows matching `getOverview`'s predicate whose price is not SQL
`NULL` — exactly the rows `AVG(price)` averages over. -/
def overviewNonNull (s : Store) (p : OverviewParams) : List RawRow :=
  (overviewMatching s p).filter (fun r => decide (r.price ≠ SqlVal.null))

/-- The row the deduplicator produces on `twoRiceRows` without filters. -/
def riceEntry : DRow :=
  { id := 2, item := "Rice", category := "cereals", unit := "kg", price := 150,
    currency := "KHR", date := "2023-06-19", province := "B", district := "",
    market := "", previousPrice := some 100, trend := some Trend.up }

/-- The first catalog province entry of `scopedStore`. -/
def provEntryP : ProvinceEntry :=
  { id := 1, name := "P",
    districts := [{ id := 1, name := "D1" }, { id := 2, name := "D2" }] }

/-- Two client rows of one item with distinct non-zero prices. -/
def twoRiceRows : List CRow :=
  [{ id := 1, item := "Rice", category := "cereals", unit := "kg", price := 100,
     currency := "KHR", date := "2023-06-19", province := "A", district := "",
     market := "" },
   { id := 2, item := "Rice", category := "cereals", unit := "kg", price := 150,
     currency := "KHR", date := "2023-06-19", province := "B", district := "",
     market := "" }]

/-! Generic facts about the sorting, deduplication and enumeration helpers. -/

theorem mem_insertSorted (le : α → α → Bool) (a x : α) :
    ∀ l : List α, x ∈ insertSorted le a l ↔ x = a ∨ x ∈ l := by
  intro l
  induction l with
  | nil => simp [insertSorted]
  | cons b l ih =>
      cases hab : le a b with
      | true => simp [insertSorted, hab]
      | false =>
          simp only [insertSorted, hab, Bool.false_eq_true, if_false, List.mem_cons, ih]
          tauto

theorem mem_sortBy (le : α → α → Bool) (x : α) :
    ∀ l : List α, x ∈ sortBy le l ↔ x ∈ l := by
  intro l
  induction l with
  | nil => simp [sortBy]
  | cons a l ih => simp [sortBy, mem_insertSorted, ih]

theorem pairwise_insertSorted (le : α → α → Bool)
    (htot : ∀ a b, le a b = true ∨ le b a = true)
    (htr : ∀ a b c, le a b = true → le b c = true → le a c = true) (a : α) :
    ∀ l : List α, List.Pairwise (fun x y => le x y = true) l →
      List.Pairwise (fun x y => le x y = true) (insertSorted le a l) := by
  intro l
  induction l with
  | nil => intro _; simp [insertSorted]
  | cons b l ih =>
      intro h
      rw [List.pairwise_cons] at h
      cases hab : le a b with
      | true =>
          simp only [insertSorted, hab, if_true]
          refine List.Pairwise.cons ?_ (List.Pairwise.cons h.1 h.2)
          intro x hx
          rcases List.mem_cons.mp hx with rfl | hx
          · exact hab
          · exact htr a b x hab (h.1 x hx)
      | false =>
          simp only [insertSorted, hab, Bool.false_eq_true, if_false]
          refine List.Pairwise.cons ?_ (ih h.2)
          intro x hx
          rcases (mem_insertSorted le a x l).mp hx with rfl | hx
          · rcases htot x b with hba | hba
            · rw [hab] at hba; exact absurd hba (by simp)
            · exact hba
          · exact h.1 x hx

theorem pairwise_sortBy (le : α → α → Bool)
    (htot : ∀ a b, le a b = true ∨ le b a = true)
    (htr : ∀ a b c, le a b = true → le b c = true → le a c = true) :
    ∀ l : List α, List.Pairwise (fun x y => le x y = true) (sortBy le l) := by
  intro l
  induction l with
  | nil => simp [sortBy]
  | cons a l ih => exact pairwise_insertSorted le htot htr a _ ih

theorem mem_dedupFirst [DecidableEq α] (x : α) :
    ∀ l : List α, x ∈ dedupFirst l ↔ x ∈ l := by
  intro l
  induction l with
  | nil => simp [dedupFirst]
  | cons a l ih =>
      simp only [dedupFirst, List.mem_cons, List.mem_filter, ih, decide_eq_true_eq]
      by_cases hxa : x = a
      · simp [hxa]
      · simp [hxa]

theorem sublist_dedupFirst [DecidableEq α] :
    ∀ l : List α, (dedupFirst l).Sublist l := by
  intro l
  induction l with
  | nil => simp [dedupFirst]
  | cons a l ih =>
      exact (List.filter_sublist _).trans ih |>.cons₂ a

theorem nodup_dedupFirst [DecidableEq α] :
    ∀ l : List α, (dedupFirst l).Nodup := by
  intro l
  induction l with
  | nil => simp [dedupFirst]
  | cons a l ih =>
      refine List.Nodup.cons ?_ (ih.filter _)
      intro h
      rcases List.mem_filter.mp h with ⟨_, hne⟩
      have : a ≠ a := of_decide_eq_true hne
      exact this rfl

theorem posMap_get? (f : Nat → α → β) :
    ∀ (l : List α) (n i : Nat), (posMap f n l).get? i = (l.get? i).map (f (n + i)) := by
  intro l
  induction l with
  | nil => intro n i; simp [posMap]
  | cons a l ih =>
      intro n i
      cases i with
      | zero => simp [posMap]
      | succ i =>
          have harith : n + 1 + i = n + (i + 1) := by omega
          simp only [posMap, List.get?_cons_succ]
          rw [ih (n + 1) i, harith]

theorem minNatD_mem (a : Nat) : ∀ l : List Nat, minNatD a l = a ∨ minNatD a l ∈ l := by
  intro l
  induction l generalizing a with
  | nil => simp [minNatD]
  | cons b l ih =>
      simp only [minNatD, List.mem_cons]
      rcases Nat.le_total a (minNatD b l) with hle | hle
      · left; omega
      · rcases ih b with hb | hb
        · right; left; rw [Nat.min_eq_right hle, hb]
        · right; right; rw [Nat.min_eq_right hle]; exact hb

theorem minNatD_le (a : Nat) : ∀ l : List Nat,
    minNatD a l ≤ a ∧ ∀ x ∈ l, minNatD a l ≤ x := by
  intro l
  induction l generalizing a with
  | nil => simp [minNatD]
  | cons b l ih =>
      simp only [minNatD, List.mem_cons]
      constructor
      · omega
      · intro x hx
        have hmin : min a (minNatD b l) ≤ minNatD b l := by omega
        rcases hx with rfl | hx
        · exact le_trans hmin (ih _).1
        · exact le_trans hmin ((ih b).2 x hx)

/-! Facts about the BINARY-collation string order. -/

theorem char_eq_of_toNat_eq {a b : Char} (h : a.toNat = b.toNat) : a = b := by
  cases a with
  | mk v hv =>
      cases b with
      | mk w hw =>
          simp only [Char.toNat] at h
          have : v = w := UInt32.ext h
          subst this
          rfl

theorem charListLtB_asymm : ∀ as bs : List Char,
    charListLtB as bs = true → charListLtB bs as = false := by
  intro as
  induction as with
  | nil =>
      intro bs h
      cases bs with
      | nil => simp [charListLtB] at h
      | cons b bs => simp [charListLtB]
  | cons a as ih =>
      intro bs h
      cases bs with
      | nil => simp [charListLtB] at h
      | cons b bs =>
          by_cases hab : a = b
          · subst hab
            simp only [charListLtB, if_pos rfl] at h ⊢
            exact ih bs h
          · simp only [charListLtB, if_neg hab] at h
            have hba : b ≠ a := fun he => hab he.symm
            simp only [charListLtB, if_neg hba]
            have hlt : a.toNat < b.toNat := of_decide_eq_true h
            simp only [charLtB, decide_eq_false_iff_not]
            omega

theorem charListLtB_trans : ∀ as bs cs : List Char,
    charListLtB as bs = true → charListLtB bs cs = true → charListLtB as cs = true := by
  intro as
  induction as with
  | nil =>
      intro bs cs h1 h2
      cases cs with
      | nil => cases bs <;> simp [charListLtB] at h1 h2
      | cons c cs => simp [charListLtB]
  | cons a as ih =>
      intro bs cs h1 h2
      cases bs with
      | nil => simp [charListLtB] at h1
      | cons b bs =>
          cases cs with
          | nil => simp [charListLtB] at h2
          | cons c cs =>
              by_cases hab : a = b <;> by_cases hbc : b = c
              · subst hab; subst hbc
                simp only [charListLtB, if_pos rfl] at h1 h2 ⊢
                exact ih bs cs h1 h2
              · subst hab
                simp only [charListLtB, if_pos rfl, if_neg hbc] at h1 h2
                have hlt : a.toNat < c.toNat := of_decide_eq_true h2
                have hac : a ≠ c := fun he => by rw [he] at hlt; omega
                simp only [charListLtB, if_neg hac, charLtB]
                exact decide_eq_true hlt
              · subst hbc
                simp only [charListLtB, if_neg hab, if_pos rfl] at h1 h2 ⊢
                exact h1
              · simp only [charListLtB, if_neg hab, if_neg hbc, charLtB] at h1 h2
                have hl1 : a.toNat < b.toNat := of_decide_eq_true h1
                have hl2 : b.toNat < c.toNat := of_decide_eq_true h2
                have hac : a ≠ c := fun he => by rw [he] at hl1; omega
                simp only [charListLtB, if_neg hac, charLtB]
                exact decide_eq_true (by omega)

theorem charListLtB_eq_of_both_false : ∀ as bs : List Char,
    charListLtB as bs = false → charListLtB bs as = false → as = bs := by
  intro as
  induction as with
  | nil =>
      intro bs h1 _
      cases bs with
      | nil => rfl
      | cons b bs => simp [charListLtB] at h1
  | cons a as ih =>
      intro bs h1 h2
      cases bs with
      | nil => simp [charListLtB] at h2
      | cons b bs =>
          by_cases hab : a = b
          · subst hab
            simp only [charListLtB, if_pos rfl] at h1 h2
            rw [ih bs h1 h2]
          · have hba : b ≠ a := fun he => hab he.symm
            simp only [charListLtB, if_neg hab, if_neg hba, charLtB,
              decide_eq_false_iff_not] at h1 h2
            exact absurd (char_eq_of_toNat_eq (by omega)) hab

theorem string_eq_of_data_eq {a b : String} (h : a.data = b.data) : a = b := by
  cases a
  cases b
  exact congrArg String.mk h

theorem strLeB_total (a b : String) : strLeB a b = true ∨ strLeB b a = true := by
  cases h : strLtB b a with
  | false => left; simp [strLeB, h]
  | true =>
      right
      simp only [strLeB, strLtB] at h ⊢
      rw [charListLtB_asymm _ _ h]
      rfl

theorem strLeB_trans (a b c : String) :
    strLeB a b = true → strLeB b c = true → strLeB a c = true := by
  simp only [strLeB, strLtB, Bool.not_eq_true']
  intro h1 h2
  cases h3 : charListLtB c.data a.data with
  | false => rfl
  | true =>
      cases h4 : charListLtB a.data b.data with
      | true => rw [charListLtB_trans _ _ _ h3 h4] at h2; cases h2
      | false =>
          have : a.data = b.data := charListLtB_eq_of_both_false _ _ h4 h1
          rw [this] at h3
          rw [h3] at h2
          cases h2

theorem strLtB_of_leB_of_ne (a b : String) (h : strLeB a b = true) (hne : a ≠ b) :
    strLtB a b = true := by
  simp only [strLeB, Bool.not_eq_true'] at h
  cases h2 : strLtB a b with
  | true => rfl
  | false =>
      exact absurd (string_eq_of_data_eq (charListLtB_eq_of_both_false _ _ h2 h)) hne

/-! Totality and transitivity of the remaining sort relations. -/

theorem optRatGeB_total (a b : Option ℚ) : optRatGeB a b = true ∨ optRatGeB b a = true := by
  cases a with
  | none => cases b <;> simp [optRatGeB]
  | some x =>
      cases b with
      | none => simp [optRatGeB]
      | some y =>
          simp only [optRatGeB, decide_eq_true_eq]
          exact le_total y x

theorem optRatGeB_trans (a b c : Option ℚ) :
    optRatGeB a b = true → optRatGeB b c = true → optRatGeB a c = true := by
  intro h1 h2
  cases a with
  | none =>
      cases c with
      | none => rfl
      | some z =>
          cases b with
          | none => simp [optRatGeB] at h2
          | some y => simp [optRatGeB] at h1
  | some x =>
      cases c with
      | none => rfl
      | some z =>
          cases b with
          | none => simp [optRatGeB] at h2
          | some y =>
              simp only [optRatGeB, decide_eq_true_eq] at h1 h2 ⊢
              exact le_trans h2 h1

theorem cRowPriceGeB_total (a b : CRow) : cRowPriceGeB a b = true ∨ cRowPriceGeB b a = true := by
  simp only [cRowPriceGeB, decide_eq_true_eq]
  exact le_total b.price a.price

theorem cRowPriceGeB_trans (a b c : CRow) :
    cRowPriceGeB a b = true → cRowPriceGeB b c = true → cRowPriceGeB a c = true := by
  simp only [cRowPriceGeB, decide_eq_true_eq]
  intro h1 h2
  exact le_trans h2 h1

theorem dRowPriceGeB_total (a b : DRow) : dRowPriceGeB a b = true ∨ dRowPriceGeB b a = true := by
  simp only [dRowPriceGeB, decide_eq_true_eq]
  exact le_total b.price a.price

theorem dRowPriceGeB_trans (a b c : DRow) :
    dRowPriceGeB a b = true → dRowPriceGeB b c = true → dRowPriceGeB a c = true := by
  simp only [dRowPriceGeB, decide_eq_true_eq]
  intro h1 h2
  exact le_trans h2 h1

/-! Claim theorems. -/

/-- Claim C2: in "no-filters" mode (no province filter, no item filter), on
the rows `[{Rice, A, 100}, {Rice, B, 150}, {Rice, C, 0}]` the trend
deduplicator outputs exactly one Rice row, and that row has price 150,
previous price 100 and trend "up"; the zero-price row is excluded from the
ranking. -/
theorem C2_no_filters_rice_example :
    (deduplicatedPrices riceRows none none).map
        (fun r => (r.item, r.province, r.price, r.previousPrice, r.trend)) =
      [("Rice", "B", (150 : ℚ), some (100 : ℚ), some Trend.up)] := by
  decide

/-- Counterexample to claim C1: on a store whose two matching rows hold the
prices `10` and `NULL`, `getOverview` reports average `10` (SQL `AVG` skips
the `NULL` row), while the claimed mean over exactly the matching rows with
the absent price coerced to `0` is `5`. -/
theorem C1_counterexample :
    (getOverview nullPriceStore ⟨none, none, none⟩).averagePrice = some 10 ∧
      specAveragePrice nullPriceStore ⟨none, none, none⟩ = some 5 ∧
      some (10 : ℚ) ≠ some (5 : ℚ) := by
  refine ⟨by with_unfolding_all rfl, by with_unfolding_all rfl, by norm_num⟩

/-- Counterexample to claim C3: with the store holding province `""` (one
district `D2`) and province `B` (district `D1`), `getPriceRows` under
province id 1 — which resolves to province `""` — and district index 2
filters on district `D1`: index 2 was resolved in the global district
lookup, although province `""` has no second district and `D1` is not one
of its districts at all. -/
theorem C3_counterexample :
    (priceRowsConds emptyProvStore ⟨some 1, some 2, none, none⟩).district = some "D1" ∧
      (provinceNames emptyProvStore).get? 0 = some "" ∧
      (districtsOfProvince emptyProvStore "").get? 1 = none ∧
      ¬ ("D1" ∈ districtsOfProvince emptyProvStore "") := by
  decide

/-- Counterexample to claim C4: on a two-province store, `getPriceRows` with
the out-of-range province id 3 and district id 1 filters on the first
district of the global lookup, so its result differs from the result with
the province filter omitted. -/
theorem C4_counterexample :
    (provinceNames twoProvStore).length = 2 ∧
      getPriceRows twoProvStore ⟨some 3, some 1, none, none⟩ ≠
        getPriceRows twoProvStore ⟨none, some 1, none, none⟩ := by
  decide

/-- Counterexample to claim C5: on a store whose alphabetically first item
sits in rowid 2, the item listing of `getFilters` carries ids `[2, 1]` —
`MIN(rowid)` values, not the 1-based positions `[1, 2]`. -/
theorem C5_counterexample :
    (getFilters twoItemStore).items.map (fun i => (i.id, i.name)) =
      [(2, "A"), (1, "B")] := by
  decide

/-- Counterexample to claim C6: on the store with province `A` holding
prices `10` and `NULL` and provinces `B`, `C` tied at `7`,
`getAveragesByProvince` lists `A` at `10` — not the claimed coerced mean
`5` — and the tie makes the output non-strictly descending. -/
theorem C6_counterexample :
    getAveragesByProvince tieStore none =
        [(some "A", some 10), (some "B", some 7), (some "C", some 7)] ∧
      strictDescB ((getAveragesByProvince tieStore none).map (fun g => g.2)) = false ∧
      specProvinceMean tieStore none (some "A") = some 5 := by
  refine ⟨by with_unfolding_all rfl, by with_unfolding_all rfl, by with_unfolding_all rfl⟩

/-- Counterexample to claim C8: a store with an empty-string province name
yields a catalog province list containing the empty name (the SQL filter
only excludes `NULL`), and resolving that province index drops the filter
term instead of returning the listed name. -/
theorem C8_counterexample :
    (getFilters emptyNameStore).provinces.map (fun p => p.name) = [""] ∧
      provinceCondOf emptyNameStore (some 1) = none := by
  decide

/-- Claim C9: the catalog derivation is a pure function of the store
snapshot and locale — two `getFilters` calls with the same locale and no
intervening data change return identical catalogs. -/
theorem C9_filters_idempotent :
    ∀ (stores : String → Store) (locale : String),
      getFiltersLocale stores locale = getFiltersLocale stores locale :=
  fun _ _ => rfl

theorem prevOf_cons (p : CRow) (t : List CRow) :
    prevOf (p :: t) = if p.price = 0 then none else some p.price := rfl

theorem trendOf_cons (latest p : CRow) (t : List CRow) :
    trendOf latest (p :: t) =
      if p.price < latest.price then some Trend.up
      else if latest.price < p.price then some Trend.down
      else some Trend.same := rfl

theorem mkEntry_sound (rows : List CRow) (r : DRow) (h : mkEntry rows = some r) :
    r.trend ≠ some Trend.down ∧ ∀ q : ℚ, r.previousPrice = some q → q ≤ r.price := by
  have hpair := pairwise_sortBy cRowPriceGeB cRowPriceGeB_total cRowPriceGeB_trans
      (rows.filter (fun x => decide (x.price ≠ 0)))
  unfold mkEntry at h
  generalize hs : sortBy cRowPriceGeB (rows.filter (fun x => decide (x.price ≠ 0))) = sorted
    at h hpair
  cases sorted with
  | nil => cases h
  | cons latest rest =>
      rw [List.pairwise_cons] at hpair
      have hr :
          r = { toCRow := latest, previousPrice := prevOf rest, trend := trendOf latest rest } :=
        (Option.some.inj h).symm
      cases rest with
      | nil =>
          subst hr
          exact ⟨by simp [trendOf], fun q hq => by simp [prevOf] at hq⟩
      | cons p t =>
          have hple : p.price ≤ latest.price :=
            of_decide_eq_true (hpair.1 p (List.mem_cons_self p t))
          subst hr
          constructor
          · show trendOf latest (p :: t) ≠ some Trend.down
            rw [trendOf_cons]
            by_cases h1 : p.price < latest.price
            · simp [h1]
            · have h2 : ¬ latest.price < p.price := not_lt.mpr hple
              simp [h1, h2]
          · intro q hq
            replace hq : prevOf (p :: t) = some q := hq
            rw [prevOf_cons] at hq
            by_cases hp0 : p.price = 0
            · rw [if_pos hp0] at hq; cases hq
            · rw [if_neg hp0] at hq
              have hpq : p.price = q := Option.some.inj hq
              show q ≤ latest.price
              rw [← hpq]
              exact hple

/-- Claim C10: every deduplicated row carrying a non-null previous price has
`previousPrice ≤ price` — the representative is the group's highest
qualifying price and the previous the second highest — so the trend is
never "down": it is "up", "same", or null. -/
theorem C10_trend_never_down (rows : List CRow) (provinceId : Option Nat)
    (itemName : Option String) (r : DRow)
    (hr : r ∈ deduplicatedPrices rows provinceId itemName) :
    r.trend ≠ some Trend.down ∧ ∀ q : ℚ, r.previousPrice = some q → q ≤ r.price := by
  have key : ∀ (m : GroupMode) (le : DRow → DRow → Bool),
      r ∈ sortBy le ((buildGroups m rows).filterMap (fun g => mkEntry g.2)) →
      (r.trend ≠ some Trend.down ∧ ∀ q : ℚ, r.previousPrice = some q → q ≤ r.price) := by
    intro m le hmem
    rcases List.mem_filterMap.mp ((mem_sortBy le r _).mp hmem) with ⟨g, _, hmk⟩
    exact mkEntry_sound g.2 r hmk
  unfold deduplicatedPrices at hr
  rcases hmode : dedupMode provinceId itemName with _ | _ | _ <;> rw [hmode] at hr
  · exact key GroupMode.noFilters dRowNameLeB hr
  · exact key GroupMode.foodOnly dRowPriceGeB hr
  · exact key GroupMode.provinceSelected dRowNameLeB hr

/-- Witness for C10 on `twoRiceRows`: the produced entry has an "up" trend
(so not "down") and its previous price 100 is at most its price 150. -/
theorem C10_witness : riceEntry.trend ≠ some Trend.down ∧ (100 : ℚ) ≤ riceEntry.price :=
  ⟨(C10_trend_never_down twoRiceRows none none riceEntry (by decide)).1,
   (C10_trend_never_down twoRiceRows none none riceEntry (by decide)).2 100 (by decide)⟩

/-- Claim C7: in "food-only" mode (item filter set, no province filter) the
deduplicator output is ordered by representative price descending. -/
theorem C7_food_only_sorted (rows : List CRow) (itemName : String) (h : itemName ≠ "") :
    List.Pairwise (fun a b => dRowPriceGeB a b = true)
      (deduplicatedPrices rows none (some itemName)) := by
  have hmode : dedupMode none (some itemName) = GroupMode.foodOnly := by
    simp [dedupMode, natTruthy, strTruthy, h]
  unfold deduplicatedPrices
  rw [hmode]
  exact pairwise_sortBy dRowPriceGeB dRowPriceGeB_total dRowPriceGeB_trans _

/-- Witness for C7: the "food-only" output on `twoRiceRows` is price-sorted. -/
theorem C7_witness :
    List.Pairwise (fun a b => dRowPriceGeB a b = true)
      (deduplicatedPrices twoRiceRows none (some "Rice")) :=
  C7_food_only_sorted twoRiceRows "Rice" (by decide)

theorem filterMap_toNumOpt (M : List RawRow) :
    (M.map (fun r => r.price)).filterMap SqlVal.toNumOpt =
      (M.filter (fun r => decide (r.price ≠ SqlVal.null))).map (fun r => SqlVal.num0 r.price) := by
  induction M with
  | nil => rfl
  | cons r M ih =>
      cases hp : r.price with
      | null =>
          simp only [List.map_cons, List.filterMap_cons, List.filter_cons, hp, SqlVal.toNumOpt, ih]
          simp
      | num q =>
          simp only [List.map_cons, List.filterMap_cons, List.filter_cons, hp, SqlVal.toNumOpt, ih]
          simp [SqlVal.num0, hp]
      | text str =>
          simp only [List.map_cons, List.filterMap_cons, List.filter_cons, hp, SqlVal.toNumOpt, ih]
          simp [SqlVal.num0, hp]

theorem overview_filterMap (s : Store) (p : OverviewParams) :
    ((overviewMatching s p).map (fun r => r.price)).filterMap SqlVal.toNumOpt =
      (overviewNonNull s p).map (fun r => SqlVal.num0 r.price) :=
  filterMap_toNumOpt (overviewMatching s p)

theorem sqlAvg_eq_none_iff (l : List SqlVal) :
    sqlAvg l = none ↔ l.filterMap SqlVal.toNumOpt = [] := by
  unfold sqlAvg
  cases hfm : l.filterMap SqlVal.toNumOpt with
  | nil => simp
  | cons x xs => simp

theorem sqlAvg_eq_some (l : List SqlVal) (q : ℚ) (h : sqlAvg l = some q) :
    q * ((l.filterMap SqlVal.toNumOpt).length : ℚ) = (l.filterMap SqlVal.toNumOpt).sum := by
  unfold sqlAvg at h
  cases hfm : l.filterMap SqlVal.toNumOpt with
  | nil => rw [hfm] at h; cases h
  | cons x xs =>
      rw [hfm] at h
      have hsum := Option.some.inj h
      have hlen : (((x :: xs).length : ℕ) : ℚ) ≠ 0 := by
        have : (x :: xs).length ≠ 0 := Nat.succ_ne_zero xs.length
        exact_mod_cast this
      calc q * (((x :: xs).length : ℕ) : ℚ)
          = ((x :: xs).sum / (((x :: xs).length : ℕ) : ℚ)) * (((x :: xs).length : ℕ) : ℚ) := by
            rw [hsum]
        _ = (x :: xs).sum := div_mul_cancel₀ _ hlen

/-- Claim C1 (amended): `averagePrice` is the arithmetic mean of the coerced
prices of the matching rows whose price cell is not SQL `NULL` (non-numeric
text coerces to 0 and participates); it is null exactly when no matching
row has a non-`NULL` price — in particular when zero rows match — and never
0 or NaN for a non-empty average set. -/
theorem C1_average_amended (s : Store) (p : OverviewParams) :
    (overviewMatching s p = [] → (getOverview s p).averagePrice = none) ∧
      ((getOverview s p).averagePrice = none ↔ overviewNonNull s p = []) ∧
      (∀ q : ℚ, (getOverview s p).averagePrice = some q →
        q * ((overviewNonNull s p).length : ℚ) =
          ((overviewNonNull s p).map (fun r => SqlVal.num0 r.price)).sum) := by
  have hrw : (getOverview s p).averagePrice =
      sqlAvg ((overviewMatching s p).map (fun r => r.price)) := rfl
  refine ⟨?_, ?_, ?_⟩
  · intro hM
    rw [hrw, hM]
    rfl
  · rw [hrw, sqlAvg_eq_none_iff, overview_filterMap]
    exact List.map_eq_nil_iff
  · intro q hq
    rw [hrw] at hq
    have h2 := sqlAvg_eq_some _ q hq
    rw [overview_filterMap] at h2
    simpa [List.length_map] using h2

/-- Witness for C1 (amended) on `twoPriceStore` (prices 4 and 8): the
average 6 times the two averaged rows gives back the sum 12. -/
theorem C1_witness :
    (6 : ℚ) * ((overviewNonNull twoPriceStore ⟨none, none, none⟩).length : ℚ) =
      ((overviewNonNull twoPriceStore ⟨none, none, none⟩).map
        (fun r => SqlVal.num0 r.price)).sum :=
  (C1_average_amended twoPriceStore ⟨none, none, none⟩).2.2 6 (by with_unfolding_all rfl)

/-- Claim C3 (amended): district resolution is scoped to the chosen
province in `getOverview` for every resolvable province id, and in
`getPriceRows` for every resolvable province whose name is non-empty: the
district term is the `did`-th element of that province's own district list
(dropped when out of range or empty).  When the chosen province's name is
the empty string, `getPriceRows` instead resolves the index against the
global district lookup. -/
theorem C3_scoped_amended (s : Store) (pid did : Nat) (it : Option String) (P : String)
    (hpid : pid ≠ 0) (hdid : did ≠ 0)
    (hP : (provinceNames s).get? (pid - 1) = some P) :
    (overviewConds s ⟨some pid, some did, it⟩).district =
        keepTruthy ((districtsOfProvince s P).get? (did - 1)) ∧
      (P ≠ "" → (priceRowsConds s ⟨some pid, some did, it, none⟩).district =
        keepTruthy ((districtsOfProvince s P).get? (did - 1))) := by
  have hnd : natTruthy (some did) = true := by simp [natTruthy, hdid]
  have hnp : natTruthy (some pid) = true := by simp [natTruthy, hpid]
  constructor
  · show scopedDistrictCond s (some pid) (some did) = _
    unfold scopedDistrictCond
    simp only [hnd, hnp, Bool.and_self, if_true, Option.getD_some, hP]
    unfold districtsOfProvince
    rw [List.get?_map]
  · intro hPne
    show priceRowsDistrictCond s (some pid) (some did) = _
    unfold priceRowsDistrictCond
    have hstP : strTruthy (some P) = true := by
      simp only [strTruthy, Option.getD_some, decide_eq_true_eq]
      exact hPne
    simp only [hnd, hnp, Bool.and_self, if_true, Option.getD_some, hP, hstP]
    unfold districtsOfProvince
    rw [List.get?_map]

/-- Witness for C3 (amended) on `scopedStore`: under province 1 (`P`),
district index 2 resolves to `P`'s own second district `D2` in both query
functions. -/
theorem C3_witness :
    (overviewConds scopedStore ⟨some 1, some 2, none⟩).district = some "D2" ∧
      (priceRowsConds scopedStore ⟨some 1, some 2, none, none⟩).district = some "D2" := by
  have h := C3_scoped_amended scopedStore 1 2 none "P" (by decide) (by decide) (by decide)
  refine ⟨?_, ?_⟩
  · rw [h.1]; decide
  · rw [h.2 (by decide)]; decide

theorem provinceCondOf_oor (s : Store) (pid : Nat) (h : (provinceNames s).length < pid) :
    provinceCondOf s (some pid) = none := by
  have h0 : pid ≠ 0 := by omega
  have hn : (provinceNames s).get? (pid - 1) = none := List.get?_len_le (by omega)
  rw [List.get?_eq_getElem?] at hn
  simp [provinceCondOf, natTruthy, h0, hn, keepTruthy]

theorem scopedDistrictCond_oor (s : Store) (pid : Nat) (did : Option Nat)
    (h : (provinceNames s).length < pid) :
    scopedDistrictCond s (some pid) did = none := by
  have hn : (provinceNames s).get? (pid - 1) = none := List.get?_len_le (by omega)
  rw [List.get?_eq_getElem?] at hn
  unfold scopedDistrictCond
  cases hd : natTruthy did with
  | false => simp [hd]
  | true =>
      have h0 : natTruthy (some pid) = true := by
        simp only [natTruthy, Option.getD_some]
        exact decide_eq_true (by omega)
      simp [hd, h0, hn, keepTruthy]

theorem scopedDistrictCond_none (s : Store) (did : Option Nat) :
    scopedDistrictCond s none did = none := by
  unfold scopedDistrictCond
  simp [natTruthy]

theorem provinceCondOf_none (s : Store) : provinceCondOf s none = none := by
  simp [provinceCondOf, natTruthy]

theorem priceRowsDistrictCond_noDid (s : Store) (pid : Option Nat) :
    priceRowsDistrictCond s pid none = none := by
  simp [priceRowsDistrictCond, natTruthy]

/-- Claim C4 (amended): an out-of-range province id behaves exactly like an
omitted province filter — and never errors — in `getOverview` and
`getItemsByLocation` with any other filters, and in `getPriceRows` when no
district id is supplied; with a district id, `getPriceRows` additionally
resolves the district index against the global district lookup (see the
counterexample). -/
theorem C4_out_of_range_amended (s : Store) (pid : Nat) (did : Option Nat)
    (it : Option String) (lim : Option Nat) (hoor : (provinceNames s).length < pid) :
    getOverview s ⟨some pid, did, it⟩ = getOverview s ⟨none, did, it⟩ ∧
      getItemsByLocation s ⟨some pid, did⟩ = getItemsByLocation s ⟨none, did⟩ ∧
      getPriceRows s ⟨some pid, none, it, lim⟩ = getPriceRows s ⟨none, none, it, lim⟩ := by
  have hprov := provinceCondOf_oor s pid hoor
  have hov : overviewConds s ⟨some pid, did, it⟩ = overviewConds s ⟨none, did, it⟩ := by
    unfold overviewConds
    rw [hprov, scopedDistrictCond_oor s pid did hoor, scopedDistrictCond_none,
      provinceCondOf_none]
  have hil : itemsByLocConds s ⟨some pid, did⟩ = itemsByLocConds s ⟨none, did⟩ := by
    unfold itemsByLocConds
    rw [hprov, scopedDistrictCond_oor s pid did hoor, scopedDistrictCond_none,
      provinceCondOf_none]
  have hpr : priceRowsConds s ⟨some pid, none, it, lim⟩ =
      priceRowsConds s ⟨none, none, it, lim⟩ := by
    unfold priceRowsConds
    rw [hprov, provinceCondOf_none, priceRowsDistrictCond_noDid, priceRowsDistrictCond_noDid]
  refine ⟨?_, ?_, ?_⟩
  · unfold getOverview overviewMatching
    rw [hov]
  · unfold getItemsByLocation
    rw [hil]
  · unfold getPriceRows
    rw [hpr]

/-- Witness for C4 (amended) on `twoProvStore` with the out-of-range
province id 5. -/
theorem C4_witness :
    getOverview twoProvStore ⟨some 5, none, none⟩ = getOverview twoProvStore ⟨none, none, none⟩ ∧
      getItemsByLocation twoProvStore ⟨some 5, none⟩ =
        getItemsByLocation twoProvStore ⟨none, none⟩ ∧
      getPriceRows twoProvStore ⟨some 5, none, none, none⟩ =
        getPriceRows twoProvStore ⟨none, none, none, none⟩ :=
  C4_out_of_range_amended twoProvStore 5 none none none (by decide)

theorem mem_posMap (f : Nat → α → β) :
    ∀ (l : List α) (n : Nat) (b : β), b ∈ posMap f n l →
      ∃ i a, l.get? i = some a ∧ b = f (n + i) a := by
  intro l
  induction l with
  | nil => intro n b h; cases h
  | cons x l ih =>
      intro n b h
      rcases List.mem_cons.mp h with rfl | h
      · exact ⟨0, x, rfl, rfl⟩
      · rcases ih (n + 1) b h with ⟨i, a, hga, hb⟩
        refine ⟨i + 1, a, hga, ?_⟩
        rw [hb]
        congr 1
        omega

theorem itemsQuery_id_spec (rows : List RawRow) (it : Item) (hit : it ∈ itemsQuery rows) :
    (∃ r, r ∈ rows ∧ r.rowid = it.id ∧ r.commodity = some it.name ∧
        r.unit = it.unit ∧ r.category = it.category) ∧
      (∀ r, r ∈ rows → r.commodity = some it.name → r.unit = it.unit →
        r.category = it.category → it.id ≤ r.rowid) := by
  have hit2 := (mem_sortBy itemLeB it _).mp hit
  rcases List.mem_map.mp hit2 with ⟨k, hk, rfl⟩
  rcases List.mem_filterMap.mp ((mem_dedupFirst k _).mp hk) with ⟨r0, hr0, hmap⟩
  cases hc : r0.commodity with
  | none => rw [hc] at hmap; cases hmap
  | some c =>
      rw [hc] at hmap
      have hk2 : (c, r0.unit, r0.category) = k := Option.some.inj hmap
      have hr0pred : (decide (r0.commodity = some k.1) && decide (r0.unit = k.2.1) &&
          decide (r0.category = k.2.2)) = true := by
        rw [← hk2]
        simp [hc]
      have hmem0 : r0.rowid ∈ itemGroupRowids rows k :=
        List.mem_map.mpr ⟨r0, List.mem_filter.mpr ⟨hr0, hr0pred⟩, rfl⟩
      cases hgr : itemGroupRowids rows k with
      | nil => rw [hgr] at hmem0; cases hmem0
      | cons a t =>
          have hid : (minNat? (itemGroupRowids rows k)).getD 0 = minNatD a t := by
            rw [hgr]; rfl
          constructor
          · have hminmem : minNatD a t ∈ itemGroupRowids rows k := by
              rw [hgr]
              rcases minNatD_mem a t with hm | hm
              · rw [hm]; exact List.mem_cons_self a t
              · exact List.mem_cons_of_mem a hm
            rcases List.mem_map.mp hminmem with ⟨r, hrf, hrid⟩
            rcases List.mem_filter.mp hrf with ⟨hrs, hpred⟩
            simp only [Bool.and_eq_true, decide_eq_true_eq] at hpred
            exact ⟨r, hrs, by rw [hrid]; rfl, hpred.1.1, hpred.1.2, hpred.2⟩
          · intro r hrs hcom hunit hcat
            have hrpred : (decide (r.commodity = some k.1) && decide (r.unit = k.2.1) &&
                decide (r.category = k.2.2)) = true := by
              simp [hcom, hunit, hcat]
            have hrmem : r.rowid ∈ itemGroupRowids rows k :=
              List.mem_map.mpr ⟨r, List.mem_filter.mpr ⟨hrs, hrpred⟩, rfl⟩
            rw [hgr] at hrmem
            show minNatD a t ≤ r.rowid
            rcases List.mem_cons.mp hrmem with heq | hin
            · rw [heq]
              exact (minNatD_le a t).1
            · exact (minNatD_le a t).2 r.rowid hin

/-- Claim C5 (amended): province ids and district ids in the catalog are
1-based positional indices into their sort-ordered listings; item ids are
instead the minimum rowid of the item's `(commodity, unit, category)`
group, not positional indices. -/
theorem C5_ids_amended (s : Store) :
    (∀ i e, (getFilters s).provinces.get? i = some e → e.id = i + 1) ∧
      (∀ p, p ∈ (getFilters s).provinces →
        ∀ j e, p.districts.get? j = some e → e.id = j + 1) ∧
      (∀ it, it ∈ (getFilters s).items →
        ∃ r, r ∈ s ∧ r.rowid = it.id ∧ r.commodity = some it.name ∧
          r.unit = it.unit ∧ r.category = it.category) ∧
      (∀ it, it ∈ (getFilters s).items → ∀ r, r ∈ s → r.commodity = some it.name →
        r.unit = it.unit → r.category = it.category → it.id ≤ r.rowid) := by
  refine ⟨?_, ?_, ?_, ?_⟩
  · intro i e he
    rw [show (getFilters s).provinces = posMap (fun i p =>
        ({ id := i, name := p,
           districts := posMap (fun j d => { id := j, name := d.2 }) 1
             ((filtersDistricts s).filter (fun d => decide (d.1 = p))) } : ProvinceEntry))
        1 (provinceNames s) from rfl, posMap_get?] at he
    cases hg : (provinceNames s).get? i with
    | none => rw [hg] at he; cases he
    | some P =>
        rw [hg] at he
        have he2 := Option.some.inj he
        rw [← he2]
        show 1 + i = i + 1
        omega
  · intro p hp j e he
    rcases mem_posMap _ _ _ _ hp with ⟨i, P, _, rfl⟩
    rw [show (posMap (fun j d => ({ id := j, name := d.2 } : DistrictEntry)) 1
        ((filtersDistricts s).filter (fun d => decide (d.1 = P)))).get? j =
        ((((filtersDistricts s).filter (fun d => decide (d.1 = P))).get? j).map
          (fun d => ({ id := 1 + j, name := d.2 } : DistrictEntry))) from posMap_get? _ _ 1 j]
      at he
    cases hg : ((filtersDistricts s).filter (fun d => decide (d.1 = P))).get? j with
    | none => rw [hg] at he; cases he
    | some d =>
        rw [hg] at he
        have he2 := Option.some.inj he
        rw [← he2]
        show 1 + j = j + 1
        omega
  · intro it hit
    exact (itemsQuery_id_spec s it hit).1
  · intro it hit
    exact (itemsQuery_id_spec s it hit).2

/-- Witness for C5 (amended): the first province of `scopedStore` has id 1,
and the item of `twoItemStore` whose group starts at rowid 2 has id at most
2. -/
theorem C5_witness :
    provEntryP.id = 0 + 1 ∧
      ({ id := 2, name := "A", unit := some "kg", category := some "A" } : Item).id ≤ 2 :=
  ⟨(C5_ids_amended scopedStore).1 0 provEntryP (by decide),
   (C5_ids_amended twoItemStore).2.2.2
     { id := 2, name := "A", unit := some "kg", category := some "A" } (by decide)
     { rowid := 2, commodity := some "A", unit := some "kg", category := some "A" }
     (by decide) (by decide) (by decide) (by decide)⟩

/-- Claim C6 (amended): the output of `getAveragesByProvince` is ordered
non-increasing (not strictly) by average price with `NULL` averages last,
lists only provinces with at least one matching row, and each listed
average is SQL `AVG` over that province's matching rows — the mean of the
non-`NULL` coerced prices, `NULL` when the province has only `NULL`
prices. -/
theorem C6_averages_amended (s : Store) (itemName : Option String) :
    List.Pairwise (fun g h => optRatGeB g.2 h.2 = true) (getAveragesByProvince s itemName) ∧
      ∀ e, e ∈ getAveragesByProvince s itemName →
        provRows s itemName e.1 ≠ [] ∧
        e.2 = sqlAvg ((provRows s itemName e.1).map (fun r => r.price)) := by
  constructor
  · exact pairwise_sortBy
      (fun g h : Option String × Option ℚ => optRatGeB g.2 h.2)
      (fun a b => optRatGeB_total a.2 b.2) (fun a b c => optRatGeB_trans a.2 b.2 c.2) _
  · intro e he
    have he2 :=
      (mem_sortBy (fun g h : Option String × Option ℚ => optRatGeB g.2 h.2) e _).mp he
    rcases List.mem_map.mp he2 with ⟨k, hk, rfl⟩
    refine ⟨?_, rfl⟩
    rcases List.mem_map.mp ((mem_dedupFirst k _).mp hk) with ⟨r, hr, hadm⟩
    intro hnil
    have hmem : r ∈ provRows s itemName k :=
      List.mem_filter.mpr ⟨hr, decide_eq_true hadm⟩
    rw [hnil] at hmem
    cases hmem

/-- Witness for C6 (amended) on `tieStore`: province `A` is listed, has
matching rows, and its listed average is SQL `AVG` over its rows. -/
theorem C6_witness :
    provRows tieStore none (some "A") ≠ [] ∧
      (some (10 : ℚ) : Option ℚ) =
        sqlAvg ((provRows tieStore none (some "A")).map (fun r => r.price)) := by
  have hmem : ((some "A", some (10 : ℚ)) : Option String × Option ℚ) ∈
      getAveragesByProvince tieStore none := by
    have hlist : getAveragesByProvince tieStore none =
        [(some "A", some 10), (some "B", some 7), (some "C", some 7)] := by
      with_unfolding_all rfl
    rw [hlist]
    exact List.mem_cons_self _ _
  exact (C6_averages_amended tieStore none).2 (some "A", some 10) hmem

theorem posMap_map_name (dfun : String → List DistrictEntry) :
    ∀ (l : List String) (n : Nat),
      (posMap (fun i p => ({ id := i, name := p, districts := dfun p } : ProvinceEntry)) n
          l).map (fun p => p.name) = l := by
  intro l
  induction l with
  | nil => intro n; rfl
  | cons a l ih =>
      intro n
      simp only [posMap, List.map_cons, ih]

/-- Claim C8 (amended): the catalog province list is lexicographically
sorted and duplicate-free and every listed name stems from a non-`NULL`
`admin1` cell — but empty-string names are not excluded; resolving province
index `i+1` through the shared lookup yields exactly the i-th listed name
whenever that name is non-empty (an empty name is falsy and drops the
filter term instead). -/
theorem C8_provinces_amended (s : Store) :
    List.Pairwise (fun a b => strLtB a b = true)
        ((getFilters s).provinces.map (fun p => p.name)) ∧
      (∀ p, p ∈ (getFilters s).provinces → ∃ r, r ∈ s ∧ r.admin1 = some p.name) ∧
      (∀ i P, (provinceNames s).get? i = some P →
        ((getFilters s).provinces.get? i).map (fun p => p.name) = some P ∧
        (P ≠ "" → provinceCondOf s (some (i + 1)) = some P)) := by
  have hnames : (getFilters s).provinces.map (fun p => p.name) = provinceNames s :=
    posMap_map_name
      (fun p => posMap (fun (j : Nat) (d : String × String) =>
          ({ id := j, name := d.2 } : DistrictEntry)) 1
        ((filtersDistricts s).filter (fun d : String × String => decide (d.1 = p))))
      (provinceNames s) 1
  refine ⟨?_, ?_, ?_⟩
  · rw [hnames]
    have hle : List.Pairwise (fun a b => strLeB a b = true) (provinceNames s) :=
      List.Pairwise.sublist (sublist_dedupFirst _)
        (pairwise_sortBy strLeB strLeB_total strLeB_trans _)
    have hnd : (provinceNames s).Nodup := nodup_dedupFirst _
    exact (hle.and hnd).imp (fun h => strLtB_of_leB_of_ne _ _ h.1 h.2)
  · intro p hp
    rcases mem_posMap _ _ _ _ hp with ⟨i, P, hget, rfl⟩
    have hPmem : P ∈ provinceNames s := List.get?_mem hget
    rcases List.mem_filterMap.mp
      ((mem_sortBy strLeB P _).mp ((mem_dedupFirst P _).mp hPmem)) with ⟨r, hr, hfa⟩
    exact ⟨r, hr, hfa⟩
  · intro i P hget
    constructor
    · rw [show (getFilters s).provinces = posMap (fun i p =>
          ({ id := i, name := p,
             districts := posMap (fun j d => { id := j, name := d.2 }) 1
               ((filtersDistricts s).filter (fun d => decide (d.1 = p))) } : ProvinceEntry))
          1 (provinceNames s) from rfl, posMap_get?, hget]
      rfl
    · intro hPne
      have hnp : natTruthy (some (i + 1)) = true := by
        simp [natTruthy]
      unfold provinceCondOf
      simp only [hnp, if_true, Option.getD_some, Nat.add_sub_cancel, hget, keepTruthy,
        if_neg hPne]

/-- Witness for C8 (amended) on `scopedStore`: index 0 lists province `P`
and resolving province id 1 yields the filter term `P`. -/
theorem C8_witness :
    ((getFilters scopedStore).provinces.get? 0).map (fun p => p.name) = some "P" ∧
      provinceCondOf scopedStore (some 1) = some "P" := by
  have h := (C8_provinces_amended scopedStore).2.2 0 "P" (by decide)
  exact ⟨h.1, h.2 (by decide)⟩

end FoodPrice
